import Mathlib

/-!
A shallow embedding of the `moonshine_spawn` crate (src/lib.rs): a
key-addressable spawnable registry (`Spawnables`) together with a
breadth-first child-materialization driver (`invoke_spawn_children`).

Modelling conventions:
  * Components are `(typeId, value)` pairs of naturals; inserting a bundle
    replaces an existing component of the same type (Bevy insert semantics).
  * `SpawnChildren` is a component; it is modelled as a dedicated `ledger`
    field of the entity record, mirroring one component slot.
  * A registered spawnable (`Arc<dyn Spawnable>`) is modelled by the bundle
    it produces: the crate's own blanket impls (`impl<T: Bundle> SpawnOnce`,
    `impl<T: SpawnOnce + Clone> Spawn`) make a registered bundle produce a
    clone of itself on every `spawn` call.  Top-level constructors (the
    arguments of `spawn_with`/`spawn_once_with`) are kept fully general as
    functions of the read-only world and the target entity.
  * Bevy guarantees fresh entity ids; `World.spawn_empty` picks
    `max id + 1`, which is fresh by construction.
  * A Rust `panic!` is modelled as `Except.error`/`DriveResult.panicked`
    carrying the panic message; the state paired with a panic flag is the
    state at the moment the panic fires (after any mutations that precede
    the failing assertion, as in `Spawnables::register`).
  * The driver loop (`while !entities.is_empty()`) is given explicit fuel;
    `DriveResult.noFuel` marks exhaustion.  The real loop diverges on
    self-referential registered keys, so no total function can avoid fuel.
-/

/-- `SpawnKey`: a string-backed identifier.  Equality and hashing in the
source are by `name()` only. -/
structure SpawnKey where
  name : String
deriving Repr

/-- `SpawnKey::new`. -/
def SpawnKey.new (s : String) : SpawnKey := ⟨s⟩

/-- `impl From<String> for SpawnKey`. -/
def SpawnKey.fromString (s : String) : SpawnKey := ⟨s⟩

/-- `impl From<&str> for SpawnKey` (clones the borrowed string). -/
def SpawnKey.fromStr (s : String) : SpawnKey := ⟨s⟩

mutual

/-- One item of a component bundle: either an ordinary component
`(typeId, value)` or a `SpawnChildren` ledger component. -/
inductive BItem : Type where
  | comp : Nat → Nat → BItem
  | ledger : List ChildRequest → BItem

/-- One deferred child-construction request stored in a `SpawnChildren`
ledger (a boxed `dyn SpawnableOnce`): an inline bundle, a `SpawnKey`,
or a `SpawnKeyWith` (key plus extra bundle). -/
inductive ChildRequest : Type where
  | inline : List BItem → ChildRequest
  | byKey : SpawnKey → ChildRequest
  | byKeyWith : SpawnKey → List BItem → ChildRequest

end

/-- A component bundle. -/
abbrev Bundle := List BItem

/-- The `SpawnChildren` component payload: the ordered request list. -/
abbrev SpawnChildren := List ChildRequest

/-- The data attached to one live entity: its ordinary components, its
optional `SpawnChildren` ledger, and its `Children` list. -/
structure EntityData where
  comps : List (Nat × Nat)
  ledger : Option SpawnChildren
  children : List Nat

/-- The empty entity produced by `spawn_empty`. -/
def EntityData.empty : EntityData := ⟨[], none, []⟩

/-- The `Spawnables` resource: a map from `SpawnKey` to the registered
spawnable's output bundle (`HashMap<SpawnKey, Arc<dyn Spawnable>>`). -/
abbrev Spawnables := List (SpawnKey × Bundle)

/-- The Bevy `World`, restricted to what the crate touches: the live
entities (in spawn order) and the `Spawnables` resource. -/
structure World where
  entities : List (Nat × EntityData)
  registry : Spawnables

/-- Insert one component, replacing any existing component of the same
type id (Bevy `insert` semantics). -/
def insertComp : List (Nat × Nat) → Nat → Nat → List (Nat × Nat)
  | [], ty, v => [(ty, v)]
  | (t, x) :: rest, ty, v =>
    if t = ty then (ty, v) :: rest else (t, x) :: insertComp rest ty v

/-- Insert a single bundle item onto an entity. -/
def insertItem (d : EntityData) : BItem → EntityData
  | .comp ty v => { d with comps := insertComp d.comps ty v }
  | .ledger reqs => { d with ledger := some reqs }

/-- `EntityWorldMut::insert` of a whole bundle, item by item. -/
def insertBundle (d : EntityData) (b : Bundle) : EntityData :=
  b.foldl insertItem d

/-- Association-list lookup by entity id (first match). -/
def lookupEntity : List (Nat × EntityData) → Nat → Option EntityData
  | [], _ => none
  | (k, v) :: rest, x => if k = x then some v else lookupEntity rest x

/-- Look up a live entity's data. -/
def World.find (w : World) (e : Nat) : Option EntityData :=
  lookupEntity w.entities e

/-- Apply `f` to the entity `e` (no-op when `e` is not alive). -/
def World.modifyEntity (w : World) (e : Nat) (f : EntityData → EntityData) :
    World :=
  { w with entities := w.entities.map fun p => if p.1 = e then (p.1, f p.2) else p }

/-- The ids of all live entities. -/
def World.ids (w : World) : List Nat := w.entities.map Prod.fst

/-- A fresh entity id: one past the maximum live id. -/
def freshId (w : World) : Nat := w.ids.foldr max 0 + 1

/-- `World::spawn_empty`: create a fresh empty entity and return its id. -/
def World.spawn_empty (w : World) : Nat × World :=
  (freshId w, { w with entities := w.entities ++ [(freshId w, EntityData.empty)] })

/-- Whether entity `e` currently carries a `SpawnChildren` ledger. -/
def World.hasLedger (w : World) (e : Nat) : Bool :=
  w.entities.any fun p => p.1 == e && p.2.ledger.isSome

/-- The entities that carry a `SpawnChildren` ledger, in world iteration
order (the scan of `invoke_spawn_children`). -/
def ledgerEntities (w : World) : List Nat :=
  (w.entities.filter fun p => p.2.ledger.isSome).map Prod.fst

/-- `should_spawn_children`: the run condition `!query.is_empty()` for the
automatic driver. -/
def should_spawn_children (w : World) : Bool :=
  !(ledgerEntities w).isEmpty

/-- `Spawnables::fetch`: look up a registered spawnable by key; `SpawnKey`
equality is name equality. -/
def Spawnables.fetch (r : Spawnables) (k : SpawnKey) : Option Bundle :=
  match r with
  | [] => none
  | (k2, b) :: rest => if k2.name = k.name then some b else Spawnables.fetch rest k

/-- `HashMap::insert`: replace the value at the (name-equal) key, returning
the previous value; the stored key is not updated.  Absent keys append. -/
def mapInsert : Spawnables → SpawnKey → Bundle → Option Bundle × Spawnables
  | [], k, v => (none, [(k, v)])
  | (k2, b) :: rest, k, v =>
    if k2.name = k.name then (some b, (k2, v) :: rest)
    else
      let r := mapInsert rest k v
      (r.1, (k2, b) :: r.2)

/-- `Spawnables::register`: `insert` first, then
`assert!(previous.is_none(), ...)`.  The boolean records whether the
assertion fired (a panic); the returned registry is the state at that
moment, i.e. with the insert already performed. -/
def Spawnables.register (r : Spawnables) (k : SpawnKey) (v : Bundle) :
    Spawnables × Bool :=
  let res := mapInsert r k v
  (res.2, res.1.isSome)

/-- The panic message of `SpawnableOnce for SpawnKey` on an unknown key:
`panic!("invalid spawn key: {self:?}")` with the source's `Debug` format
`SpawnKey("name")`. -/
def invalidSpawnKeyMsg (k : SpawnKey) : String :=
  "invalid spawn key: SpawnKey(\"" ++ k.name ++ "\")"

/-- `impl SpawnableOnce for SpawnKey`: fetch the registered spawnable and
insert its output bundle, or panic with the key's debug text. -/
def SpawnKey.spawn_once (k : SpawnKey) (w : World) (e : Nat) :
    Except String World :=
  match Spawnables.fetch w.registry k with
  | some b => .ok (w.modifyEntity e (insertBundle · b))
  | none => .error (invalidSpawnKeyMsg k)

/-- `impl SpawnableOnce for SpawnKeyWith`: spawn the key first, then insert
the extra bundle on the same entity. -/
def SpawnKeyWith.spawn_once (k : SpawnKey) (extra : Bundle) (w : World)
    (e : Nat) : Except String World :=
  match k.spawn_once w e with
  | .error m => .error m
  | .ok w2 => .ok (w2.modifyEntity e (insertBundle · extra))

/-- `spawn_once_dyn` on a boxed ledger request. -/
def ChildRequest.spawn_once_dyn (r : ChildRequest) (w : World) (e : Nat) :
    Except String World :=
  match r with
  | .inline b => .ok (w.modifyEntity e (insertBundle · b))
  | .byKey k => k.spawn_once w e
  | .byKeyWith k extra => SpawnKeyWith.spawn_once k extra w e

/-- `EntityWorldMut::add_child`: append to the `Children` component. -/
def EntityData.add_child (d : EntityData) (c : Nat) : EntityData :=
  { d with children := d.children ++ [c] }

/-- The request loop inside `SpawnChildren::invoke`: for each request, in
order, spawn an empty entity, resolve the request onto it, report it to
the `child_spawned` callback (the accumulator), and attach it as a child
of the ledger's owner. -/
def spawnRequests (parent : Nat) :
    World → List ChildRequest → List Nat → Except String (World × List Nat)
  | w, [], acc => .ok (w, acc)
  | w, req :: rest, acc =>
    let child := freshId w
    let w1 := (w.spawn_empty).2
    match req.spawn_once_dyn w1 child with
    | .error m => .error m
    | .ok w2 =>
      spawnRequests parent (w2.modifyEntity parent (·.add_child child)) rest
        (acc ++ [child])

/-- `SpawnChildren::invoke`: `take` the ledger off the entity (if any) and
run its requests; returns the world and the children reported to the
callback.  The driver only calls this on live entities. -/
def SpawnChildren.invoke (w : World) (e : Nat) :
    Except String (World × List Nat) :=
  match w.find e with
  | none => .ok (w, [])
  | some d =>
    match d.ledger with
    | none => .ok (w, [])
    | some reqs =>
      spawnRequests e (w.modifyEntity e fun d2 => { d2 with ledger := none }) reqs []

/-- One generation of the driver: invoke every entity of the batch in
order, concatenating the freshly spawned children. -/
def drainBatch : World → List Nat → Except String (World × List Nat)
  | w, [] => .ok (w, [])
  | w, e :: rest =>
    match SpawnChildren.invoke w e with
    | .error m => .error m
    | .ok (w1, cs) =>
      match drainBatch w1 rest with
      | .error m => .error m
      | .ok (w2, cs2) => .ok (w2, cs ++ cs2)

/-- Result of a driver run: success, a propagated panic, or fuel
exhaustion (the source loop can diverge on cyclic registered keys). -/
inductive DriveResult where
  | ok : World → DriveResult
  | panicked : String → DriveResult
  | noFuel : DriveResult

/-- The `while !entities.is_empty()` loop of `invoke_spawn_children`:
each iteration takes the current work list as a batch and collects the
children spawned during the batch as the next work list. -/
def driverLoop : Nat → World → List Nat → DriveResult
  | _, w, [] => .ok w
  | 0, _, _ :: _ => .noFuel
  | fuel + 1, w, es =>
    match drainBatch w es with
    | .error m => .panicked m
    | .ok (w1, next) => driverLoop fuel w1 next

/-- `invoke_spawn_children`: scan the whole live entity set for ledgers,
then run the generation loop. -/
def invoke_spawn_children (fuel : Nat) (w : World) : DriveResult :=
  driverLoop fuel w (ledgerEntities w)

/-- A top-level constructor, covering the four spawn entry points of
`SpawnCommands`/`SpawnWorld`.  `withSpawn`/`withSpawnOnce` carry the
bundle-producing function `fn(&World, Entity) -> Bundle` of an arbitrary
`Spawn`/`SpawnOnce` implementor. -/
inductive Ctor where
  | withSpawn : (World → Nat → Bundle) → Ctor
  | withSpawnOnce : (World → Nat → Bundle) → Ctor
  | byKey : SpawnKey → Ctor
  | byKeyWith : SpawnKey → Bundle → Ctor

/-- The resolve-and-insert step shared by both execution contexts:
`Spawnable::spawn` / `SpawnableOnce::spawn_once` on the empty entity. -/
def applyCtor (c : Ctor) (w : World) (e : Nat) : Except String World :=
  match c with
  | .withSpawn f => .ok (w.modifyEntity e (insertBundle · (f w e)))
  | .withSpawnOnce f => .ok (w.modifyEntity e (insertBundle · (f w e)))
  | .byKey k => k.spawn_once w e
  | .byKeyWith k extra => SpawnKeyWith.spawn_once k extra w e

/-- The immediate (`SpawnWorld for World`) entry points: spawn an empty
entity, resolve-and-insert, then run `invoke_spawn_children`
unconditionally; the new entity's id is returned. -/
def World.spawn_ctor (fuel : Nat) (w : World) (c : Ctor) : Nat × DriveResult :=
  let e := freshId w
  let w1 := (w.spawn_empty).2
  match applyCtor c w1 e with
  | .error m => (e, .panicked m)
  | .ok w2 => (e, invoke_spawn_children fuel w2)

/-- The deferred (`SpawnCommands for Commands`) entry points followed by a
command flush and the automatic `First`-schedule driver: `spawn_empty`
reserves the id and is applied at flush, then the queued closure runs,
then `invoke_spawn_children.run_if(should_spawn_children)`. -/
def Commands.spawn_ctor_flush (fuel : Nat) (w : World) (c : Ctor) :
    Nat × DriveResult :=
  let e := freshId w
  let w1 := (w.spawn_empty).2
  match applyCtor c w1 e with
  | .error m => (e, .panicked m)
  | .ok w2 =>
    (e, if should_spawn_children w2 then invoke_spawn_children fuel w2 else .ok w2)

/-- `WithChildren::with_children`: the bundle `(self, children)`. -/
def with_children (b : Bundle) (reqs : List ChildRequest) : Bundle :=
  b ++ [.ledger reqs]

/-- `SpawnChildBuilder::spawn`: append an inline request. -/
def SpawnChildBuilder.spawn (l : List ChildRequest) (b : Bundle) :
    List ChildRequest := l ++ [.inline b]

/-- `SpawnChildBuilder::spawn_key`: append a by-key request. -/
def SpawnChildBuilder.spawn_key (l : List ChildRequest) (k : SpawnKey) :
    List ChildRequest := l ++ [.byKey k]

/-- `SpawnChildBuilder::spawn_key_with`: append a key-plus-bundle request. -/
def SpawnChildBuilder.spawn_key_with (l : List ChildRequest) (k : SpawnKey)
    (b : Bundle) : List ChildRequest := l ++ [.byKeyWith k b]

/-- The total bundle a ledger request resolves to against a registry:
inline requests carry it, by-key requests fetch it, key-plus-extra
requests fetch and then append the extra bundle. -/
def requestBundle (r : Spawnables) : ChildRequest → Option Bundle
  | .inline b => some b
  | .byKey k => Spawnables.fetch r k
  | .byKeyWith k extra => (Spawnables.fetch r k).map (· ++ extra)

/-- First-match lookup of a component value by type id. -/
def lookupComp : List (Nat × Nat) → Nat → Option Nat
  | [], _ => none
  | (t, v) :: rest, ty => if t = ty then some v else lookupComp rest ty

/-- The value a bundle itself assigns to a component type (the last
`comp` item of that type wins, matching repeated insertion). -/
def bLookup : Bundle → Nat → Option Nat
  | [], _ => none
  | .comp t v :: rest, ty =>
    match bLookup rest ty with
    | some v2 => some v2
    | none => if t = ty then some v else none
  | .ledger _ :: rest, ty => bLookup rest ty

/-! ### Basic lemmas about the world representation -/

theorem lookupEntity_mapIf_eq (l : List (Nat × EntityData)) (e : Nat)
    (f : EntityData → EntityData) :
    lookupEntity (l.map fun p => if p.1 = e then (p.1, f p.2) else p) e =
      (lookupEntity l e).map f := by
  induction l with
  | nil => rfl
  | cons p rest ih =>
    obtain ⟨k, v⟩ := p
    simp only [List.map_cons]
    by_cases h : k = e
    · subst h
      rw [if_pos rfl]
      simp [lookupEntity]
    · rw [if_neg h]
      simp [lookupEntity, h, ih]

theorem lookupEntity_mapIf_ne (l : List (Nat × EntityData)) (e x : Nat)
    (f : EntityData → EntityData) (hx : x ≠ e) :
    lookupEntity (l.map fun p => if p.1 = e then (p.1, f p.2) else p) x =
      lookupEntity l x := by
  induction l with
  | nil => rfl
  | cons p rest ih =>
    obtain ⟨k, v⟩ := p
    simp only [List.map_cons]
    by_cases h : k = e
    · subst h
      rw [if_pos rfl]
      have h2 : ¬k = x := fun hc => hx hc.symm
      simp [lookupEntity, h2, ih]
    · rw [if_neg h]
      by_cases h2 : k = x
      · subst h2; simp [lookupEntity]
      · simp [lookupEntity, h2, ih]

theorem lookupEntity_append (l1 l2 : List (Nat × EntityData)) (x : Nat) :
    lookupEntity (l1 ++ l2) x =
      match lookupEntity l1 x with
      | some v => some v
      | none => lookupEntity l2 x := by
  induction l1 with
  | nil => rfl
  | cons p rest ih =>
    obtain ⟨k, v⟩ := p
    by_cases h : k = x
    · simp [lookupEntity, h]
    · simp [lookupEntity, h, ih]

theorem mem_ids_of_lookupEntity (l : List (Nat × EntityData)) (x : Nat)
    (d : EntityData) (h : lookupEntity l x = some d) : x ∈ l.map Prod.fst := by
  induction l with
  | nil => simp [lookupEntity] at h
  | cons p rest ih =>
    obtain ⟨k, v⟩ := p
    by_cases hk : k = x
    · subst hk; simp
    · simp only [lookupEntity, if_neg hk] at h
      simp [ih h]

theorem lookupEntity_eq_none_of_not_mem (l : List (Nat × EntityData)) (x : Nat)
    (h : x ∉ l.map Prod.fst) : lookupEntity l x = none := by
  induction l with
  | nil => rfl
  | cons p rest ih =>
    obtain ⟨k, v⟩ := p
    simp only [List.map_cons, List.mem_cons] at h
    push_neg at h
    have hk : ¬k = x := fun hc => h.1 hc.symm
    simp [lookupEntity, hk, ih h.2]

theorem find_modifyEntity_eq (w : World) (e : Nat) (f : EntityData → EntityData) :
    (w.modifyEntity e f).find e = (w.find e).map f :=
  lookupEntity_mapIf_eq w.entities e f

theorem find_modifyEntity_ne (w : World) (e x : Nat)
    (f : EntityData → EntityData) (hx : x ≠ e) :
    (w.modifyEntity e f).find x = w.find x :=
  lookupEntity_mapIf_ne w.entities e x f hx

theorem mem_ids_of_find (w : World) (x : Nat) (d : EntityData)
    (h : w.find x = some d) : x ∈ w.ids :=
  mem_ids_of_lookupEntity w.entities x d h

theorem mem_le_foldr_max (l : List Nat) (x : Nat) (h : x ∈ l) :
    x ≤ l.foldr max 0 := by
  induction l with
  | nil => simp at h
  | cons a rest ih =>
    rcases List.mem_cons.mp h with h1 | h2
    · subst h1; exact le_max_left _ _
    · exact le_trans (ih h2) (le_max_right _ _)

theorem mem_ids_lt_freshId (w : World) (x : Nat) (h : x ∈ w.ids) :
    x < freshId w :=
  Nat.lt_succ_of_le (mem_le_foldr_max w.ids x h)

theorem freshId_not_mem (w : World) : freshId w ∉ w.ids := by
  intro h
  exact lt_irrefl _ (mem_ids_lt_freshId w _ h)

theorem registry_modifyEntity (w : World) (e : Nat) (f : EntityData → EntityData) :
    (w.modifyEntity e f).registry = w.registry := rfl

theorem registry_spawn_empty (w : World) :
    ((w.spawn_empty).2).registry = w.registry := rfl

theorem ids_modifyEntity (w : World) (e : Nat) (f : EntityData → EntityData) :
    (w.modifyEntity e f).ids = w.ids := by
  unfold World.modifyEntity World.ids
  simp only [List.map_map]
  apply List.map_congr_left
  intro p _
  by_cases h : p.1 = e <;> simp [h]

theorem ids_spawn_empty (w : World) :
    ((w.spawn_empty).2).ids = w.ids ++ [freshId w] := by
  simp [World.spawn_empty, World.ids]

theorem find_spawn_empty_fresh (w : World) :
    ((w.spawn_empty).2).find (freshId w) = some EntityData.empty := by
  show lookupEntity (w.entities ++ [(freshId w, EntityData.empty)]) (freshId w) =
    some EntityData.empty
  rw [lookupEntity_append]
  rw [lookupEntity_eq_none_of_not_mem w.entities (freshId w) (freshId_not_mem w)]
  simp [lookupEntity]

theorem find_spawn_empty_ne (w : World) (x : Nat) (hx : x ≠ freshId w) :
    ((w.spawn_empty).2).find x = w.find x := by
  show lookupEntity (w.entities ++ [(freshId w, EntityData.empty)]) x = w.find x
  rw [lookupEntity_append]
  have h2 : ¬freshId w = x := fun hc => hx hc.symm
  cases h : lookupEntity w.entities x <;> simp [World.find, lookupEntity, h, h2]

theorem lookupEntity_isSome_of_mem (l : List (Nat × EntityData)) (x : Nat)
    (h : x ∈ l.map Prod.fst) : (lookupEntity l x).isSome := by
  induction l with
  | nil => simp at h
  | cons p rest ih =>
    obtain ⟨k, v⟩ := p
    by_cases hk : k = x
    · simp [lookupEntity, hk]
    · simp only [List.map_cons, List.mem_cons] at h
      rcases h with h1 | h2
      · exact absurd h1.symm hk
      · simp [lookupEntity, hk, ih h2]

theorem lookupEntity_eq_of_mem_nodup (l : List (Nat × EntityData)) (x : Nat)
    (d : EntityData) (hnd : (l.map Prod.fst).Nodup) (h : (x, d) ∈ l) :
    lookupEntity l x = some d := by
  induction l with
  | nil => simp at h
  | cons p rest ih =>
    obtain ⟨k, v⟩ := p
    simp only [List.map_cons, List.nodup_cons] at hnd
    rcases List.mem_cons.mp h with h1 | h2
    · obtain ⟨hx, hv⟩ := Prod.mk.injEq .. ▸ h1
      cases h1
      simp [lookupEntity]
    · have hx : x ∈ rest.map Prod.fst := List.mem_map.mpr ⟨(x, d), h2, rfl⟩
      have hk : ¬k = x := fun hc => hnd.1 (hc ▸ hx)
      simp [lookupEntity, hk, ih hnd.2 h2]

theorem hasLedger_iff (w : World) (x : Nat) :
    w.hasLedger x = true ↔ ∃ p ∈ w.entities, p.1 = x ∧ p.2.ledger.isSome := by
  simp [World.hasLedger, List.any_eq_true, Bool.and_eq_true, beq_iff_eq]

theorem mem_ledgerEntities_iff (w : World) (x : Nat) :
    x ∈ ledgerEntities w ↔ w.hasLedger x = true := by
  rw [hasLedger_iff]
  unfold ledgerEntities
  constructor
  · intro h
    obtain ⟨p, hp, hfst⟩ := List.mem_map.mp h
    have hf := List.mem_filter.mp hp
    exact ⟨p, hf.1, hfst, hf.2⟩
  · rintro ⟨p, hp, hfst, hled⟩
    exact List.mem_map.mpr ⟨p, List.mem_filter.mpr ⟨hp, hled⟩, hfst⟩

theorem mem_ids_of_hasLedger (w : World) (x : Nat)
    (h : w.hasLedger x = true) : x ∈ w.ids := by
  obtain ⟨p, hp, hfst, _⟩ := (hasLedger_iff w x).mp h
  exact List.mem_map.mpr ⟨p, hp, hfst⟩

theorem hasLedger_spawn_empty (w : World) (x : Nat) :
    ((w.spawn_empty).2).hasLedger x = w.hasLedger x := by
  unfold World.spawn_empty World.hasLedger
  simp [EntityData.empty]

theorem hasLedger_modifyEntity_imp (w : World) (e x : Nat)
    (f : EntityData → EntityData)
    (h : (w.modifyEntity e f).hasLedger x = true) :
    x = e ∨ w.hasLedger x = true := by
  rw [hasLedger_iff] at h
  obtain ⟨p, hp, hfst, hled⟩ := h
  obtain ⟨q, hq, hqe⟩ := List.mem_map.mp hp
  by_cases hc : q.1 = e
  · left
    rw [if_pos hc] at hqe
    rw [← hfst, ← hqe]
    exact hc
  · right
    rw [if_neg hc] at hqe
    subst hqe
    exact (hasLedger_iff w x).mpr ⟨q, hq, hfst, hled⟩

theorem hasLedger_modifyEntity_preserve (w : World) (e x : Nat)
    (f : EntityData → EntityData)
    (hf : ∀ d, ((f d).ledger).isSome = (d.ledger).isSome) :
    (w.modifyEntity e f).hasLedger x = w.hasLedger x := by
  unfold World.modifyEntity World.hasLedger
  simp only
  induction w.entities with
  | nil => rfl
  | cons p rest ih =>
    obtain ⟨k, v⟩ := p
    simp only [List.map_cons, List.any_cons]
    by_cases h : k = e
    · rw [if_pos h]
      simp [hf, ih]
    · rw [if_neg h]
      simp [ih]

theorem hasLedger_clear_self (w : World) (e : Nat) :
    (w.modifyEntity e fun d => { d with ledger := none }).hasLedger e = false := by
  unfold World.modifyEntity World.hasLedger
  simp only
  rw [List.any_eq_false]
  intro p hp
  obtain ⟨q, hq, hqe⟩ := List.mem_map.mp hp
  by_cases hc : q.1 = e
  · rw [if_pos hc] at hqe
    subst hqe
    simp
  · rw [if_neg hc] at hqe
    subst hqe
    simp [hc]

theorem hasLedger_clear_ne (w : World) (e x : Nat) (hx : x ≠ e) :
    (w.modifyEntity e fun d => { d with ledger := none }).hasLedger x =
      w.hasLedger x := by
  unfold World.modifyEntity World.hasLedger
  simp only
  induction w.entities with
  | nil => rfl
  | cons p rest ih =>
    obtain ⟨k, v⟩ := p
    simp only [List.map_cons, List.any_cons]
    by_cases h : k = e
    · rw [if_pos h]
      have hk : (k == x) = false := by
        subst h
        exact beq_eq_false_iff_ne.mpr fun hc => hx hc.symm
      simp [hk, ih]
    · rw [if_neg h]
      simp [ih]

theorem modifyEntity_modifyEntity (w : World) (e : Nat)
    (f g : EntityData → EntityData) :
    (w.modifyEntity e f).modifyEntity e g =
      w.modifyEntity e (fun d => g (f d)) := by
  unfold World.modifyEntity
  simp only [List.map_map]
  congr 1
  apply List.map_congr_left
  intro p _
  by_cases h : p.1 = e <;> simp [Function.comp, h]

theorem insertBundle_append (d : EntityData) (b1 b2 : Bundle) :
    insertBundle d (b1 ++ b2) = insertBundle (insertBundle d b1) b2 := by
  simp [insertBundle, List.foldl_append]

theorem nodup_ids_modifyEntity (w : World) (e : Nat)
    (f : EntityData → EntityData) (h : w.ids.Nodup) :
    (w.modifyEntity e f).ids.Nodup := by
  rw [ids_modifyEntity]; exact h

theorem nodup_ids_spawn_empty (w : World) (h : w.ids.Nodup) :
    ((w.spawn_empty).2).ids.Nodup := by
  rw [ids_spawn_empty]
  simp only [List.nodup_append]
  exact ⟨h, List.nodup_singleton _, by
    intro a ha hb
    simp only [List.mem_singleton] at hb
    exact freshId_not_mem w (hb ▸ ha)⟩

/-! ### Resolution of a single ledger request -/

theorem spawn_once_dyn_ok (r : ChildRequest) (w : World) (c : Nat) (w2 : World)
    (h : r.spawn_once_dyn w c = .ok w2) :
    ∃ b, requestBundle w.registry r = some b ∧
      w2 = w.modifyEntity c (insertBundle · b) := by
  cases r with
  | inline b =>
    simp only [ChildRequest.spawn_once_dyn, Except.ok.injEq] at h
    exact ⟨b, rfl, h.symm⟩
  | byKey k =>
    simp only [ChildRequest.spawn_once_dyn, SpawnKey.spawn_once] at h
    cases hf : Spawnables.fetch w.registry k with
    | none => rw [hf] at h; simp at h
    | some b =>
      rw [hf] at h
      simp only [Except.ok.injEq] at h
      exact ⟨b, by simp [requestBundle, hf], h.symm⟩
  | byKeyWith k extra =>
    simp only [ChildRequest.spawn_once_dyn, SpawnKeyWith.spawn_once,
      SpawnKey.spawn_once] at h
    cases hf : Spawnables.fetch w.registry k with
    | none => rw [hf] at h; simp at h
    | some b =>
      rw [hf] at h
      simp only [Except.ok.injEq] at h
      refine ⟨b ++ extra, by simp [requestBundle, hf], ?_⟩
      rw [← h, modifyEntity_modifyEntity]
      congr 1
      funext d
      rw [insertBundle_append]

/-! ### The request loop of `SpawnChildren::invoke` -/

theorem spawnRequests_spec (reqs : List ChildRequest) :
    ∀ (w : World) (parent : Nat) (acc : List Nat) (w2 : World) (cs : List Nat),
    spawnRequests parent w reqs acc = .ok (w2, cs) →
    parent ∈ w.ids →
    ∃ news, cs = acc ++ news ∧ news.length = reqs.length ∧
      w2.registry = w.registry ∧
      (∀ x, x ∈ w.ids → x ∈ w2.ids) ∧
      (w.ids.Nodup → w2.ids.Nodup) ∧
      w2.find parent =
        (w.find parent).map (fun d => { d with children := d.children ++ news }) ∧
      (∀ x, x ∈ w.ids → x ≠ parent → w2.find x = w.find x) ∧
      (∀ i req, reqs.get? i = some req → ∃ c b, news.get? i = some c ∧
        requestBundle w.registry req = some b ∧ c ∉ w.ids ∧
        w2.find c = some (insertBundle EntityData.empty b)) ∧
      (∀ x, w2.hasLedger x = true → w.hasLedger x = true ∨ x ∈ news) := by
  induction reqs with
  | nil =>
    intro w parent acc w2 cs h hparent
    simp only [spawnRequests, Except.ok.injEq, Prod.mk.injEq] at h
    obtain ⟨hw, hcs⟩ := h
    subst hw; subst hcs
    refine ⟨[], by simp, rfl, rfl, fun x hx => hx, fun h => h, ?_, fun x _ _ => rfl,
      by intro i req h; simp at h, fun x h => Or.inl h⟩
    cases w.find parent <;> simp
  | cons req rest ih =>
    intro w parent acc w2 cs h hparent
    have hunf : spawnRequests parent w (req :: rest) acc =
        match req.spawn_once_dyn (w.spawn_empty).2 (freshId w) with
        | .error m => .error m
        | .ok wm =>
          spawnRequests parent
            (wm.modifyEntity parent (·.add_child (freshId w))) rest
            (acc ++ [freshId w]) := rfl
    rw [hunf] at h
    cases hdyn : req.spawn_once_dyn (w.spawn_empty).2 (freshId w) with
    | error m => rw [hdyn] at h; simp at h
    | ok wm =>
      rw [hdyn] at h
      obtain ⟨b0, hb0, hwm⟩ := spawn_once_dyn_ok _ _ _ _ hdyn
      have hregw1 : ((w.spawn_empty).2).registry = w.registry := rfl
      rw [hregw1] at hb0
      -- basic facts about the fresh child
      have hchild_notmem : freshId w ∉ w.ids := freshId_not_mem w
      have hparent_ne : parent ≠ freshId w := fun hc => hchild_notmem (hc ▸ hparent)
      -- the world handed to the recursive call
      set child := freshId w with hchild_def
      set w3 := wm.modifyEntity parent (·.add_child child) with hw3
      have hids_w1 : ((w.spawn_empty).2).ids = w.ids ++ [child] := ids_spawn_empty w
      have hids_wm : wm.ids = w.ids ++ [child] := by
        rw [hwm, ids_modifyEntity, hids_w1]
      have hids_w3 : w3.ids = w.ids ++ [child] := by
        rw [hw3, ids_modifyEntity, hids_wm]
      have hparent3 : parent ∈ w3.ids := by
        rw [hids_w3]; exact List.mem_append_left _ hparent
      obtain ⟨news', hcs, hlen, hreg, hidsmono, hnodup, hfindp, hframe, hidx, hled⟩ :=
        ih w3 parent (acc ++ [child]) w2 cs h hparent3
      have hreg3 : w3.registry = w.registry := by
        rw [hw3, registry_modifyEntity, hwm, registry_modifyEntity,
          registry_spawn_empty]
      refine ⟨child :: news', ?_, by simp [hlen], by rw [hreg, hreg3], ?_, ?_, ?_, ?_, ?_, ?_⟩
      · rw [hcs, List.append_assoc]; rfl
      · -- ids monotone
        intro x hx
        apply hidsmono
        rw [hids_w3]
        exact List.mem_append_left _ hx
      · -- nodup preserved
        intro hnd
        apply hnodup
        rw [hids_w3]
        simp only [List.nodup_append]
        exact ⟨hnd, List.nodup_singleton _, by
          intro a ha hb
          simp only [List.mem_singleton] at hb
          exact hchild_notmem (hb ▸ ha)⟩
      · -- parent's children accumulate in order
        rw [hfindp, hw3, find_modifyEntity_eq, hwm,
          find_modifyEntity_ne _ _ _ _ hparent_ne,
          find_spawn_empty_ne w parent hparent_ne]
        cases w.find parent <;> simp [EntityData.add_child]
      · -- frame: pre-existing entities other than the parent are untouched
        intro x hx hxp
        have hx_ne_child : x ≠ child := fun hc => hchild_notmem (hc ▸ hx)
        have hx3 : x ∈ w3.ids := by
          rw [hids_w3]; exact List.mem_append_left _ hx
        rw [hframe x hx3 hxp, hw3, find_modifyEntity_ne _ _ _ _ hxp, hwm,
          find_modifyEntity_ne _ _ _ _ hx_ne_child,
          find_spawn_empty_ne w x hx_ne_child]
      · -- per-request correspondence
        intro i r hr
        cases i with
        | zero =>
          simp only [List.get?] at hr
          cases hr
          refine ⟨child, b0, rfl, hb0, hchild_notmem, ?_⟩
          have hchild3 : child ∈ w3.ids := by
            rw [hids_w3]; exact List.mem_append_right _ (by simp)
          have hchild_ne_parent : child ≠ parent := fun hc => hparent_ne hc.symm
          rw [hframe child hchild3 hchild_ne_parent, hw3,
            find_modifyEntity_ne _ _ _ _ hchild_ne_parent, hwm,
            find_modifyEntity_eq, find_spawn_empty_fresh w]
          rfl
        | succ i' =>
          simp only [List.get?] at hr
          obtain ⟨c, b, hc, hb, hcnot, hcfind⟩ := hidx i' r hr
          refine ⟨c, b, hc, by rw [← hreg3]; exact hb, ?_, hcfind⟩
          intro hcmem
          exact hcnot (by rw [hids_w3]; exact List.mem_append_left _ hcmem)
      · -- ledger flow
        intro x hx
        rcases hled x hx with h3 | hnews
        · have hm : wm.hasLedger x = true := by
            rw [hw3] at h3
            rwa [hasLedger_modifyEntity_preserve] at h3
            intro d; simp [EntityData.add_child]
          rw [hwm] at hm
          rcases hasLedger_modifyEntity_imp _ _ _ _ hm with hxc | hw1
          · exact Or.inr (by simp [hxc])
          · rw [hasLedger_spawn_empty] at hw1
            exact Or.inl hw1
        · exact Or.inr (List.mem_cons_of_mem _ hnews)

/-! ### `SpawnChildren::invoke` and the generation loop -/

theorem invoke_spec (w : World) (e : Nat) (d : EntityData)
    (reqs : List ChildRequest) (w2 : World) (cs : List Nat)
    (hfind : w.find e = some d) (hled : d.ledger = some reqs)
    (hinv : SpawnChildren.invoke w e = .ok (w2, cs)) :
    cs.length = reqs.length ∧
    w2.find e = some { d with ledger := none, children := d.children ++ cs } ∧
    (∀ i req, reqs.get? i = some req → ∃ c b, cs.get? i = some c ∧
      requestBundle w.registry req = some b ∧ c ∉ w.ids ∧
      w2.find c = some (insertBundle EntityData.empty b)) := by
  unfold SpawnChildren.invoke at hinv
  split at hinv
  · rename_i heq
    rw [hfind] at heq
    simp at heq
  · rename_i d' heq
    rw [hfind] at heq
    simp only [Option.some.injEq] at heq
    subst heq
    split at hinv
    · rename_i heq2
      rw [hled] at heq2
      simp at heq2
    · rename_i reqs' heq2
      rw [hled] at heq2
      simp only [Option.some.injEq] at heq2
      subst heq2
      have hparent : e ∈ w.ids := mem_ids_of_find w e d hfind
      have hparent' :
          e ∈ (w.modifyEntity e fun d2 => { d2 with ledger := none }).ids := by
        rwa [ids_modifyEntity]
      obtain ⟨news, hcs, hlen, _, _, _, hfindp, _, hidx, _⟩ :=
        spawnRequests_spec reqs _ e [] w2 cs hinv hparent'
      simp only [List.nil_append] at hcs
      subst hcs
      refine ⟨hlen, ?_, ?_⟩
      · rw [hfindp, find_modifyEntity_eq, hfind]
        rfl
      · intro i req hr
        obtain ⟨c, b, hc, hb, hcnot, hcfind⟩ := hidx i req hr
        rw [ids_modifyEntity] at hcnot
        exact ⟨c, b, hc, hb, hcnot, hcfind⟩

theorem invoke_flow (w : World) (e : Nat) (w2 : World) (cs : List Nat)
    (hnd : w.ids.Nodup)
    (hinv : SpawnChildren.invoke w e = .ok (w2, cs)) :
    w2.ids.Nodup ∧ (∀ x, x ∈ w.ids → x ∈ w2.ids) ∧
    (∀ x, w2.hasLedger x = true → (w.hasLedger x = true ∧ x ≠ e) ∨ x ∈ cs) := by
  unfold SpawnChildren.invoke at hinv
  split at hinv
  · rename_i hfind
    simp only [Except.ok.injEq, Prod.mk.injEq] at hinv
    obtain ⟨hw, _⟩ := hinv
    subst hw
    refine ⟨hnd, fun x hx => hx, ?_⟩
    intro x hx
    left
    refine ⟨hx, ?_⟩
    intro hxe
    subst hxe
    have := lookupEntity_isSome_of_mem w.entities x (mem_ids_of_hasLedger w x hx)
    rw [show lookupEntity w.entities x = w.find x from rfl, hfind] at this
    simp at this
  · rename_i d hfind
    split at hinv
    · rename_i hled
      simp only [Except.ok.injEq, Prod.mk.injEq] at hinv
      obtain ⟨hw, _⟩ := hinv
      subst hw
      refine ⟨hnd, fun x hx => hx, ?_⟩
      intro x hx
      left
      refine ⟨hx, ?_⟩
      intro hxe
      subst hxe
      obtain ⟨p, hp, hfst, hpl⟩ := (hasLedger_iff w x).mp hx
      obtain ⟨k, v⟩ := p
      simp only at hfst hpl
      subst hfst
      have hlk : w.find k = some v :=
        lookupEntity_eq_of_mem_nodup w.entities k v hnd hp
      rw [hfind] at hlk
      simp only [Option.some.injEq] at hlk
      rw [← hlk, hled] at hpl
      simp at hpl
    · rename_i reqs hled
      have hparent : e ∈ w.ids := mem_ids_of_find w e d hfind
      have hparent' :
          e ∈ (w.modifyEntity e fun d2 => { d2 with ledger := none }).ids := by
        rwa [ids_modifyEntity]
      obtain ⟨news, hcs, _, _, hmono, hnodup, _, _, _, hledflow⟩ :=
        spawnRequests_spec reqs _ e [] w2 cs hinv hparent'
      simp only [List.nil_append] at hcs
      subst hcs
      refine ⟨hnodup (by rwa [ids_modifyEntity]), ?_, ?_⟩
      · intro x hx
        exact hmono x (by rwa [ids_modifyEntity])
      · intro x hx
        rcases hledflow x hx with hcl | hmem
        · by_cases hxe : x = e
          · subst hxe
            rw [hasLedger_clear_self] at hcl
            simp at hcl
          · rw [hasLedger_clear_ne w e x hxe] at hcl
            exact Or.inl ⟨hcl, hxe⟩
        · exact Or.inr hmem

theorem drainBatch_spec (es : List Nat) :
    ∀ (w : World) (w2 : World) (cs : List Nat), w.ids.Nodup →
    drainBatch w es = .ok (w2, cs) →
    w2.ids.Nodup ∧
    (∀ x, w2.hasLedger x = true → (w.hasLedger x = true ∧ x ∉ es) ∨ x ∈ cs) := by
  induction es with
  | nil =>
    intro w w2 cs hnd h
    simp only [drainBatch, Except.ok.injEq, Prod.mk.injEq] at h
    obtain ⟨hw, _⟩ := h
    subst hw
    exact ⟨hnd, fun x hx => Or.inl ⟨hx, by simp⟩⟩
  | cons e rest ih =>
    intro w w2 cs hnd h
    have hunf : drainBatch w (e :: rest) =
        match SpawnChildren.invoke w e with
        | .error m => .error m
        | .ok (w1, cs1) =>
          match drainBatch w1 rest with
          | .error m => .error m
          | .ok (w2', cs2) => .ok (w2', cs1 ++ cs2) := rfl
    rw [hunf] at h
    split at h
    · simp at h
    · rename_i w1 cs1 hinv
      split at h
      · simp at h
      · rename_i w2' cs2 hdb
        simp only [Except.ok.injEq, Prod.mk.injEq] at h
        obtain ⟨hw, hcs⟩ := h
        subst hw
        subst hcs
        obtain ⟨hnd1, _, hflow1⟩ := invoke_flow w e w1 cs1 hnd hinv
        obtain ⟨hnd2, hflow2⟩ := ih w1 _ cs2 hnd1 hdb
        refine ⟨hnd2, ?_⟩
        intro x hx
        rcases hflow2 x hx with ⟨h1, hnr⟩ | hm2
        · rcases hflow1 x h1 with ⟨h0, hne⟩ | hm1
          · refine Or.inl ⟨h0, ?_⟩
            simp only [List.mem_cons]
            push_neg
            exact ⟨hne, hnr⟩
          · exact Or.inr (List.mem_append_left _ hm1)
        · exact Or.inr (List.mem_append_right _ hm2)

theorem driverLoop_nil (fuel : Nat) (w : World) : driverLoop fuel w [] = .ok w := by
  cases fuel <;> rfl

theorem driverLoop_drains (fuel : Nat) :
    ∀ (w : World) (es : List Nat) (w2 : World), w.ids.Nodup →
    (∀ x, w.hasLedger x = true → x ∈ es) →
    driverLoop fuel w es = .ok w2 →
    ∀ x, w2.hasLedger x = false := by
  induction fuel with
  | zero =>
    intro w es w2 hnd hinv h x
    cases es with
    | nil =>
      simp only [driverLoop, DriveResult.ok.injEq] at h
      subst h
      cases hx : w.hasLedger x with
      | false => rfl
      | true => exact absurd (hinv x hx) (by simp)
    | cons e rest => simp [driverLoop] at h
  | succ fuel ih =>
    intro w es w2 hnd hinv h x
    cases es with
    | nil =>
      simp only [driverLoop, DriveResult.ok.injEq] at h
      subst h
      cases hx : w.hasLedger x with
      | false => rfl
      | true => exact absurd (hinv x hx) (by simp)
    | cons e rest =>
      have hunf : driverLoop (fuel + 1) w (e :: rest) =
          match drainBatch w (e :: rest) with
          | .error m => .panicked m
          | .ok (w1, next) => driverLoop fuel w1 next := rfl
      rw [hunf] at h
      split at h
      · simp at h
      · rename_i w1 next hdb
        obtain ⟨hnd1, hflow⟩ := drainBatch_spec (e :: rest) w w1 next hnd hdb
        refine ih w1 next w2 hnd1 ?_ h x
        intro y hy
        rcases hflow y hy with ⟨h1, hnm⟩ | hm
        · exact absurd (hinv y h1) hnm
        · exact hm

theorem invoke_spawn_children_drains (fuel : Nat) (w : World) (w2 : World)
    (hnd : w.ids.Nodup) (h : invoke_spawn_children fuel w = .ok w2) :
    ∀ x, w2.hasLedger x = false := by
  refine driverLoop_drains fuel w (ledgerEntities w) w2 hnd ?_ h
  intro x hx
  exact (mem_ledgerEntities_iff w x).mpr hx

theorem ledgerEntities_eq_nil (w : World) (h : ∀ x, w.hasLedger x = false) :
    ledgerEntities w = [] := by
  rw [List.eq_nil_iff_forall_not_mem]
  intro x hx
  have := (mem_ledgerEntities_iff w x).mp hx
  rw [h x] at this
  simp at this

/-! ### Registry lemmas -/

theorem mapInsert_fst (r : Spawnables) (k : SpawnKey) (v : Bundle) :
    (mapInsert r k v).1 = Spawnables.fetch r k := by
  induction r with
  | nil => rfl
  | cons p rest ih =>
    obtain ⟨k2, b⟩ := p
    by_cases h : k2.name = k.name <;> simp [mapInsert, Spawnables.fetch, h, ih]

theorem fetch_mapInsert_name (r : Spawnables) (k1 k2 : SpawnKey) (v : Bundle)
    (h : k1.name = k2.name) :
    Spawnables.fetch (mapInsert r k1 v).2 k2 = some v := by
  induction r with
  | nil => simp [mapInsert, Spawnables.fetch, h]
  | cons p rest ih =>
    obtain ⟨k3, b⟩ := p
    simp only [mapInsert]
    by_cases h3 : k3.name = k1.name
    · rw [if_pos h3]
      show Spawnables.fetch ((k3, v) :: rest) k2 = some v
      simp only [Spawnables.fetch]
      rw [if_pos (h3.trans h)]
    · rw [if_neg h3]
      show Spawnables.fetch ((k3, b) :: (mapInsert rest k1 v).2) k2 = some v
      simp only [Spawnables.fetch]
      have h4 : ¬k3.name = k2.name := fun hc => h3 (hc.trans h.symm)
      rw [if_neg h4]
      exact ih

/-! ### Component insertion order -/

theorem lookupComp_insertComp (cs : List (Nat × Nat)) (t v ty : Nat) :
    lookupComp (insertComp cs t v) ty =
      if t = ty then some v else lookupComp cs ty := by
  induction cs with
  | nil => rfl
  | cons p rest ih =>
    obtain ⟨a, x⟩ := p
    by_cases hat : a = t
    · subst hat
      by_cases haty : a = ty <;> simp [insertComp, lookupComp, haty]
    · by_cases haty : a = ty
      · subst haty
        have : ¬t = a := fun hc => hat hc.symm
        simp [insertComp, hat, lookupComp, this]
      · simp [insertComp, hat, lookupComp, haty, ih]

theorem lookupComp_insertBundle (b : Bundle) :
    ∀ (d : EntityData) (ty : Nat),
    lookupComp (insertBundle d b).comps ty =
      match bLookup b ty with
      | some v => some v
      | none => lookupComp d.comps ty := by
  induction b with
  | nil => intro d ty; rfl
  | cons item rest ih =>
    intro d ty
    cases item with
    | comp t v =>
      have hstep : insertBundle d (.comp t v :: rest) =
          insertBundle (insertItem d (.comp t v)) rest := rfl
      rw [hstep, ih]
      cases hb : bLookup rest ty with
      | some v2 => simp [bLookup, hb]
      | none =>
        by_cases ht : t = ty <;>
          simp [bLookup, hb, insertItem, lookupComp_insertComp, ht]
    | ledger reqs =>
      have hstep : insertBundle d (.ledger reqs :: rest) =
          insertBundle (insertItem d (.ledger reqs)) rest := rfl
      rw [hstep, ih]
      cases hb : bLookup rest ty with
      | some v2 => simp [bLookup, hb]
      | none => simp [bLookup, hb, insertItem]

/-! ### Claim theorems -/

/-- C3 (counterexample): the claim says a duplicate `register` leaves the
registry unchanged, the old constructor neither removed nor replaced.  In
the source, `HashMap::insert` runs *before* the uniqueness assertion, so
at the moment the panic fires the old entry has already been replaced:
registering `[comp 1 1]` over `"K" -> [comp 0 0]` panics, yet the registry
then maps `"K"` to the new bundle, which differs from the old one. -/
theorem register_duplicate_replaces_counterexample :
    (Spawnables.register [(SpawnKey.new "K", [BItem.comp 0 0])] (SpawnKey.new "K")
        [BItem.comp 1 1]).2 = true ∧
    Spawnables.fetch
        (Spawnables.register [(SpawnKey.new "K", [BItem.comp 0 0])]
          (SpawnKey.new "K") [BItem.comp 1 1]).1 (SpawnKey.new "K") =
      some [BItem.comp 1 1] ∧
    ([BItem.comp 1 1] : Bundle) ≠ [BItem.comp 0 0] := by
  refine ⟨rfl, rfl, ?_⟩
  intro h
  simp at h

/-- C3 (amended): when `register` is called with a key that is already
registered, the operation fails fatally (the uniqueness assertion fires),
but because the insertion precedes the check, the failing call has already
replaced the previously registered constructor with the new one: after the
call the registry maps the key to the new spawnable. -/
theorem register_duplicate_panics_and_replaces (r : Spawnables) (k : SpawnKey)
    (v : Bundle) (h : (Spawnables.fetch r k).isSome = true) :
    (Spawnables.register r k v).2 = true ∧
    Spawnables.fetch (Spawnables.register r k v).1 k = some v := by
  unfold Spawnables.register
  simp only
  rw [mapInsert_fst]
  exact ⟨h, fetch_mapInsert_name r k k v rfl⟩

theorem register_duplicate_panics_and_replaces_witness :
    (Spawnables.fetch [(SpawnKey.new "K", [BItem.comp 0 0])]
        (SpawnKey.new "K")).isSome = true ∧
    ((Spawnables.register [(SpawnKey.new "K", [BItem.comp 0 0])]
          (SpawnKey.new "K") [BItem.comp 1 1]).2 = true ∧
      Spawnables.fetch
          (Spawnables.register [(SpawnKey.new "K", [BItem.comp 0 0])]
            (SpawnKey.new "K") [BItem.comp 1 1]).1 (SpawnKey.new "K") =
        some [BItem.comp 1 1]) :=
  ⟨rfl, register_duplicate_panics_and_replaces _ _ _ rfl⟩

/-- C4: registering the same identifier twice fails fatally, and so does
registering two distinct identifier values with equal underlying name
strings: uniqueness in the registry is decided by name equality of the
keys (the `PartialEq`/`Hash` impls of `SpawnKey` compare `name()` only),
not by how the key values were constructed. -/
theorem registration_uniqueness_by_name (r : Spawnables) (k1 k2 : SpawnKey)
    (v1 v2 : Bundle) (h : k1.name = k2.name) :
    (Spawnables.register (Spawnables.register r k1 v1).1 k2 v2).2 = true := by
  unfold Spawnables.register
  simp only
  rw [mapInsert_fst, fetch_mapInsert_name r k1 k2 v1 h]
  rfl

theorem registration_uniqueness_by_name_witness :
    (SpawnKey.new "K").name = (SpawnKey.fromStr "K").name ∧
    (Spawnables.register
        (Spawnables.register [] (SpawnKey.new "K") [BItem.comp 0 0]).1
        (SpawnKey.fromStr "K") [BItem.comp 1 1]).2 = true :=
  ⟨rfl, registration_uniqueness_by_name [] (SpawnKey.new "K")
    (SpawnKey.fromStr "K") [BItem.comp 0 0] [BItem.comp 1 1] rfl⟩

/-- C5: spawning by a key without a registry entry fails fatally (an
`Except.error`, the model of the source's `panic!`, not a recoverable
result), and the panic message contains the literal name string of the
offending key. -/
theorem unknown_key_spawn_panics (w : World) (k : SpawnKey) (e : Nat)
    (h : Spawnables.fetch w.registry k = none) :
    k.spawn_once w e = .error (invalidSpawnKeyMsg k) ∧
    ∃ p q, invalidSpawnKeyMsg k = p ++ k.name ++ q := by
  refine ⟨?_, "invalid spawn key: SpawnKey(\"", "\")", rfl⟩
  unfold SpawnKey.spawn_once
  rw [h]

theorem unknown_key_spawn_panics_witness :
    Spawnables.fetch (World.mk [] []).registry (SpawnKey.new "GHOST") = none ∧
    ((SpawnKey.new "GHOST").spawn_once (World.mk [] []) 1 =
        .error (invalidSpawnKeyMsg (SpawnKey.new "GHOST")) ∧
      ∃ p q, invalidSpawnKeyMsg (SpawnKey.new "GHOST") =
        p ++ (SpawnKey.new "GHOST").name ++ q) :=
  ⟨rfl, unknown_key_spawn_panics (World.mk [] []) (SpawnKey.new "GHOST") 1 rfl⟩

/-- C10: in a by-key-plus-extra-bundle spawn (`SpawnKeyWith::spawn_once`),
the registered constructor's bundle is inserted first and the extra bundle
second onto the same entity; consequently, for any component type the
extra bundle assigns, the resulting entity carries the extra bundle's
value. -/
theorem spawn_key_with_extra_overrides (w : World) (e : Nat) (d : EntityData)
    (k : SpawnKey) (breg bext : Bundle)
    (hfind : w.find e = some d)
    (hreg : Spawnables.fetch w.registry k = some breg) :
    ∃ w2, SpawnKeyWith.spawn_once k bext w e = .ok w2 ∧
      w2.find e = some (insertBundle (insertBundle d breg) bext) ∧
      ∀ ty v, bLookup bext ty = some v →
        lookupComp (insertBundle (insertBundle d breg) bext).comps ty =
          some v := by
  unfold SpawnKeyWith.spawn_once SpawnKey.spawn_once
  rw [hreg]
  simp only
  refine ⟨_, rfl, ?_, ?_⟩
  · rw [find_modifyEntity_eq, find_modifyEntity_eq, hfind]
    rfl
  · intro ty v hv
    rw [lookupComp_insertBundle, hv]

theorem spawn_key_with_extra_overrides_witness :
    (World.mk [(1, EntityData.empty)] [(SpawnKey.new "K", [BItem.comp 5 1])]).find 1 =
      some EntityData.empty ∧
    Spawnables.fetch
        (World.mk [(1, EntityData.empty)]
          [(SpawnKey.new "K", [BItem.comp 5 1])]).registry (SpawnKey.new "K") =
      some [BItem.comp 5 1] ∧
    ∃ w2, SpawnKeyWith.spawn_once (SpawnKey.new "K") [BItem.comp 5 2]
        (World.mk [(1, EntityData.empty)]
          [(SpawnKey.new "K", [BItem.comp 5 1])]) 1 = .ok w2 ∧
      w2.find 1 =
        some (insertBundle (insertBundle EntityData.empty [BItem.comp 5 1])
          [BItem.comp 5 2]) ∧
      ∀ ty v, bLookup [BItem.comp 5 2] ty = some v →
        lookupComp
            (insertBundle (insertBundle EntityData.empty [BItem.comp 5 1])
              [BItem.comp 5 2]).comps ty = some v :=
  ⟨rfl, rfl, spawn_key_with_extra_overrides _ 1 EntityData.empty
    (SpawnKey.new "K") [BItem.comp 5 1] [BItem.comp 5 2] rfl rfl⟩

theorem applyCtor_ids (c : Ctor) (w : World) (e : Nat) (w2 : World)
    (h : applyCtor c w e = .ok w2) : w2.ids = w.ids := by
  cases c with
  | withSpawn f =>
    simp only [applyCtor, Except.ok.injEq] at h
    rw [← h, ids_modifyEntity]
  | withSpawnOnce f =>
    simp only [applyCtor, Except.ok.injEq] at h
    rw [← h, ids_modifyEntity]
  | byKey k =>
    simp only [applyCtor, SpawnKey.spawn_once] at h
    split at h
    · simp only [Except.ok.injEq] at h
      rw [← h, ids_modifyEntity]
    · simp at h
  | byKeyWith k extra =>
    simp only [applyCtor, SpawnKeyWith.spawn_once] at h
    split at h
    · simp at h
    · rename_i w3 heq
      simp only [Except.ok.injEq] at h
      simp only [SpawnKey.spawn_once] at heq
      split at heq
      · rename_i b hfetch
        simp only [Except.ok.injEq] at heq
        rw [← h, ← heq, ids_modifyEntity, ids_modifyEntity]
      · simp at heq

set_option maxHeartbeats 1000000 in
/-- C1: a root spawned immediately with a constructor producing bundle
`{A}` plus a child ledger whose single request produces `{B}` with a
nested ledger producing `{C}`: after the driver pass run by the immediate
entry point, the root (entity 1) carries exactly `{A}` and has exactly one
child (entity 2) carrying exactly `{B}`, that child has exactly one child
(entity 3) carrying exactly `{C}`, and no entity in the world still
carries a `SpawnChildren` ledger. -/
theorem recursive_children_one_pass (tyA vA tyB vB tyC vC : Nat) :
    ∃ w', World.spawn_ctor 3 (World.mk [] [])
        (.withSpawnOnce fun _ _ =>
          with_children [.comp tyA vA]
            [.inline (with_children [.comp tyB vB] [.inline [.comp tyC vC]])]) =
        (1, .ok w') ∧
      w'.find 1 = some ⟨[(tyA, vA)], none, [2]⟩ ∧
      w'.find 2 = some ⟨[(tyB, vB)], none, [3]⟩ ∧
      w'.find 3 = some ⟨[(tyC, vC)], none, []⟩ ∧
      ledgerEntities w' = [] :=
  ⟨World.mk [(1, ⟨[(tyA, vA)], none, [2]⟩), (2, ⟨[(tyB, vB)], none, [3]⟩),
      (3, ⟨[(tyC, vC)], none, []⟩)] [],
    rfl, rfl, rfl, rfl, rfl⟩

/-- C2: for every constructor (any of the four entry-point shapes, with
inline constructors as arbitrary functions of world and target entity),
spawning through the immediate `World` entry point and spawning through
the deferred `Commands` entry point followed by a command flush and the
automatic gated driver produce identical results: the same entity id and
component-for-component the same world. -/
theorem immediate_deferred_equivalence (fuel : Nat) (w : World) (c : Ctor) :
    World.spawn_ctor fuel w c = Commands.spawn_ctor_flush fuel w c := by
  simp only [World.spawn_ctor, Commands.spawn_ctor_flush]
  split
  · rfl
  · rename_i w2 happ
    by_cases hs : should_spawn_children w2 = true
    · rw [if_pos hs]
    · rw [if_neg hs]
      have hempty : ledgerEntities w2 = [] := by
        unfold should_spawn_children at hs
        rcases h2 : ledgerEntities w2 with _ | ⟨a, rest⟩
        · rfl
        · rw [h2] at hs
          simp at hs
      unfold invoke_spawn_children
      rw [hempty, driverLoop_nil]

/-- C6: a pending-children ledger is drained exactly once.  After a
successful driver run, no entity carries a ledger, so the automatic
driver's gating existence check `should_spawn_children` returns `false`,
and running the driver again (with any fuel) returns the world unchanged:
the second run mutates no entity. -/
theorem driver_idempotent (fuel : Nat) (w w2 : World) (hnd : w.ids.Nodup)
    (h : invoke_spawn_children fuel w = .ok w2) :
    should_spawn_children w2 = false ∧
    ∀ fuel2, invoke_spawn_children fuel2 w2 = .ok w2 := by
  have hdr := invoke_spawn_children_drains fuel w w2 hnd h
  have hnil : ledgerEntities w2 = [] := ledgerEntities_eq_nil w2 hdr
  constructor
  · unfold should_spawn_children
    rw [hnil]
    rfl
  · intro fuel2
    unfold invoke_spawn_children
    rw [hnil, driverLoop_nil]

theorem driver_idempotent_witness :
    (World.mk [(1, EntityData.mk []
        (some [ChildRequest.inline [BItem.comp 5 5]]) [])] []).ids.Nodup ∧
    (should_spawn_children
        (World.mk [(1, EntityData.mk [] none [2]),
          (2, EntityData.mk [(5, 5)] none [])] []) = false ∧
      ∀ fuel2, invoke_spawn_children fuel2
          (World.mk [(1, EntityData.mk [] none [2]),
            (2, EntityData.mk [(5, 5)] none [])] []) =
        .ok (World.mk [(1, EntityData.mk [] none [2]),
          (2, EntityData.mk [(5, 5)] none [])] [])) :=
  ⟨by decide,
    driver_idempotent 2
      (World.mk [(1, EntityData.mk []
        (some [ChildRequest.inline [BItem.comp 5 5]]) [])] [])
      (World.mk [(1, EntityData.mk [] none [2]),
        (2, EntityData.mk [(5, 5)] none [])] [])
      (by decide) rfl⟩

/-- C7: for every ledger, `SpawnChildren::invoke` processes the requests
in list order — the order the authoring `SpawnChildBuilder` appended them:
it spawns one fresh entity per request, resolves the request's constructor
(inline, by-key, or by-key-plus-extra) to its bundle, inserts it on the
fresh entity, and attaches the new entity as a child of the ledger's
owner, so the owner's children list extends by the new entities in request
order (sibling order matches request order), and the ledger is detached. -/
theorem ledger_processed_in_request_order (w : World) (e : Nat)
    (d : EntityData) (reqs : List ChildRequest) (w2 : World) (cs : List Nat)
    (hfind : w.find e = some d) (hled : d.ledger = some reqs)
    (hinv : SpawnChildren.invoke w e = .ok (w2, cs)) :
    cs.length = reqs.length ∧
    w2.find e = some { d with ledger := none, children := d.children ++ cs } ∧
    (∀ i req, reqs.get? i = some req → ∃ c b, cs.get? i = some c ∧
      requestBundle w.registry req = some b ∧ c ∉ w.ids ∧
      w2.find c = some (insertBundle EntityData.empty b)) :=
  invoke_spec w e d reqs w2 cs hfind hled hinv

theorem ledger_processed_in_request_order_witness :
    (World.mk [(1, EntityData.mk []
        (some [ChildRequest.inline [BItem.comp 3 3],
          ChildRequest.inline [BItem.comp 4 4]]) [])] []).find 1 =
      some (EntityData.mk []
        (some [ChildRequest.inline [BItem.comp 3 3],
          ChildRequest.inline [BItem.comp 4 4]]) []) ∧
    (EntityData.mk []
        (some [ChildRequest.inline [BItem.comp 3 3],
          ChildRequest.inline [BItem.comp 4 4]]) []).ledger =
      some [ChildRequest.inline [BItem.comp 3 3],
        ChildRequest.inline [BItem.comp 4 4]] ∧
    SpawnChildren.invoke
        (World.mk [(1, EntityData.mk []
          (some [ChildRequest.inline [BItem.comp 3 3],
            ChildRequest.inline [BItem.comp 4 4]]) [])] []) 1 =
      .ok (World.mk [(1, EntityData.mk [] none [2, 3]),
        (2, EntityData.mk [(3, 3)] none []),
        (3, EntityData.mk [(4, 4)] none [])] [], [2, 3]) ∧
    ([2, 3] : List Nat).length =
      [ChildRequest.inline [BItem.comp 3 3],
        ChildRequest.inline [BItem.comp 4 4]].length ∧
    (World.mk [(1, EntityData.mk [] none [2, 3]),
        (2, EntityData.mk [(3, 3)] none []),
        (3, EntityData.mk [(4, 4)] none [])] []).find 1 =
      some { EntityData.mk []
          (some [ChildRequest.inline [BItem.comp 3 3],
            ChildRequest.inline [BItem.comp 4 4]]) [] with
        ledger := none, children := [] ++ [2, 3] } ∧
    (∀ i req,
      [ChildRequest.inline [BItem.comp 3 3],
        ChildRequest.inline [BItem.comp 4 4]].get? i = some req →
      ∃ c b, ([2, 3] : List Nat).get? i = some c ∧
        requestBundle (World.mk [(1, EntityData.mk []
          (some [ChildRequest.inline [BItem.comp 3 3],
            ChildRequest.inline [BItem.comp 4 4]]) [])] []).registry req =
          some b ∧
        c ∉ (World.mk [(1, EntityData.mk []
          (some [ChildRequest.inline [BItem.comp 3 3],
            ChildRequest.inline [BItem.comp 4 4]]) [])] []).ids ∧
        (World.mk [(1, EntityData.mk [] none [2, 3]),
          (2, EntityData.mk [(3, 3)] none []),
          (3, EntityData.mk [(4, 4)] none [])] []).find c =
          some (insertBundle EntityData.empty b)) :=
  ⟨rfl, rfl, rfl,
    ledger_processed_in_request_order _ 1 _ _ _ [2, 3] rfl rfl rfl⟩

/-- C8: a child ledger entry `byKey "K"` with `"K"` registered as `{A}`
yields, after the driver pass, a child whose component set is exactly
`{A}`; a `byKeyWith "K" {Z}` entry yields a child whose component set is
exactly `{A, Z}` (for distinct component types). -/
theorem by_key_children (tyA vA tyZ vZ : Nat) (hne : tyA ≠ tyZ) :
    (∃ w', invoke_spawn_children 2
        (World.mk [(1, EntityData.mk []
          (some [ChildRequest.byKey (SpawnKey.new "K")]) [])]
          [(SpawnKey.new "K", [BItem.comp tyA vA])]) = .ok w' ∧
      w'.find 2 = some (EntityData.mk [(tyA, vA)] none [])) ∧
    (∃ w', invoke_spawn_children 2
        (World.mk [(1, EntityData.mk []
          (some [ChildRequest.byKeyWith (SpawnKey.new "K")
            [BItem.comp tyZ vZ]]) [])]
          [(SpawnKey.new "K", [BItem.comp tyA vA])]) = .ok w' ∧
      w'.find 2 = some (EntityData.mk [(tyA, vA), (tyZ, vZ)] none [])) := by
  constructor
  · exact ⟨World.mk [(1, EntityData.mk [] none [2]),
      (2, EntityData.mk [(tyA, vA)] none [])]
      [(SpawnKey.new "K", [BItem.comp tyA vA])], rfl, rfl⟩
  · have hstep : insertComp [(tyA, vA)] tyZ vZ = [(tyA, vA), (tyZ, vZ)] := by
      simp [insertComp, hne]
    have hrun : invoke_spawn_children 2
        (World.mk [(1, EntityData.mk []
          (some [ChildRequest.byKeyWith (SpawnKey.new "K")
            [BItem.comp tyZ vZ]]) [])]
          [(SpawnKey.new "K", [BItem.comp tyA vA])]) =
        .ok (World.mk [(1, EntityData.mk [] none [2]),
          (2, EntityData.mk (insertComp [(tyA, vA)] tyZ vZ) none [])]
          [(SpawnKey.new "K", [BItem.comp tyA vA])]) := rfl
    rw [hstep] at hrun
    exact ⟨_, hrun, rfl⟩

theorem by_key_children_witness :
    (10 : Nat) ≠ 11 ∧
    ((∃ w', invoke_spawn_children 2
        (World.mk [(1, EntityData.mk []
          (some [ChildRequest.byKey (SpawnKey.new "K")]) [])]
          [(SpawnKey.new "K", [BItem.comp 10 1])]) = .ok w' ∧
      w'.find 2 = some (EntityData.mk [(10, 1)] none [])) ∧
    (∃ w', invoke_spawn_children 2
        (World.mk [(1, EntityData.mk []
          (some [ChildRequest.byKeyWith (SpawnKey.new "K")
            [BItem.comp 11 2]]) [])]
          [(SpawnKey.new "K", [BItem.comp 10 1])]) = .ok w' ∧
      w'.find 2 = some (EntityData.mk [(10, 1), (11, 2)] none []))) :=
  ⟨by decide, by_key_children 10 1 11 2 (by decide)⟩

/-- C9: the immediate (`World`) spawn entry points run the driver over the
entire live entity set, so a single immediate spawn also drains a
pending-children ledger attached to a pre-existing entity unrelated to the
one being spawned. -/
theorem immediate_spawn_drains_unrelated (fuel : Nat) (w : World) (c : Ctor)
    (e i : Nat) (w2 : World) (hnd : w.ids.Nodup)
    (hled : w.hasLedger e = true)
    (h : World.spawn_ctor fuel w c = (i, .ok w2)) :
    w2.hasLedger e = false := by
  simp only [World.spawn_ctor] at h
  split at h
  · simp at h
  · rename_i w3 happ
    simp only [Prod.mk.injEq] at h
    have hids3 : w3.ids = ((w.spawn_empty).2).ids := applyCtor_ids c _ _ _ happ
    have hnd3 : w3.ids.Nodup := by
      rw [hids3]
      exact nodup_ids_spawn_empty w hnd
    exact invoke_spawn_children_drains fuel w3 w2 hnd3 h.2 e

theorem immediate_spawn_drains_unrelated_witness :
    (World.mk [(1, EntityData.mk []
        (some [ChildRequest.inline [BItem.comp 5 5]]) [])] []).ids.Nodup ∧
    (World.mk [(1, EntityData.mk []
        (some [ChildRequest.inline [BItem.comp 5 5]]) [])] []).hasLedger 1 =
      true ∧
    World.spawn_ctor 2
        (World.mk [(1, EntityData.mk []
          (some [ChildRequest.inline [BItem.comp 5 5]]) [])] [])
        (.withSpawnOnce fun _ _ => [BItem.comp 7 7]) =
      (2, .ok (World.mk [(1, EntityData.mk [] none [3]),
        (2, EntityData.mk [(7, 7)] none []),
        (3, EntityData.mk [(5, 5)] none [])] [])) ∧
    (World.mk [(1, EntityData.mk [] none [3]),
      (2, EntityData.mk [(7, 7)] none []),
      (3, EntityData.mk [(5, 5)] none [])] []).hasLedger 1 = false :=
  ⟨by decide, rfl, rfl,
    immediate_spawn_drains_unrelated 2
      (World.mk [(1, EntityData.mk []
        (some [ChildRequest.inline [BItem.comp 5 5]]) [])] [])
      (.withSpawnOnce fun _ _ => [BItem.comp 7 7]) 1 2
      (World.mk [(1, EntityData.mk [] none [3]),
        (2, EntityData.mk [(7, 7)] none []),
        (3, EntityData.mk [(5, 5)] none [])] [])
      (by decide) rfl rfl⟩
